import Mathlib

/-!
Verification of the streaming JSON object extractor in
`ca-api-backend/app.py` (`process_nlq_request`, lines 129-190).

The extractor owns a text buffer.  Each arriving chunk is decoded,
whitespace-stripped (`chunk.decode('utf-8').strip()`) and appended to the
buffer; then a `while True` loop repeatedly

  1. finds the first `\x7b` in the buffer (`buffer.find`),
  2. scans forward keeping a naive brace counter (`+1` on `\x7b`, `-1` on
     `\x7d`), stopping at the first index where the counter returns to zero,
  3. takes the candidate slice, strips surrounding whitespace, drops a
     single trailing `]` if present,
  4. validates it with `json.loads`; on success it yields the value and
     trims the buffer past the span, on `JSONDecodeError` it logs the bad
     span (modelled here as a `MalformedSpan` outcome), trims, and breaks;
     any other exception is caught by the outer `except Exception` handler
     and breaks the loop with the buffer untouched.

After the chunk loop, if the remaining buffer is neither blank nor a lone
`]`, the code runs exactly one `json.loads(buffer)`; a decode failure there
is uncaught at that level (it aborts the generator and is swallowed by the
outermost bare `except`), which we model as an `Except.error`.

Buffers and chunks are modelled as `List Char` (the utf-8 decode of a byte
chunk is the identity at this level).  `json.loads` is modelled by an
executable recursive-descent parser of the JSON grammar accepted by
Python's strict decoder; numbers are kept as their literal text since the
extractor treats decoded values as opaque.  All recursion is structural
(fuel-indexed where the source loops), so every definition evaluates by
kernel reduction.
-/

namespace App

/-- JSON values as produced by `json.loads`; numbers and string bodies are
kept as character lists, and objects as ordered member lists (the
extractor never inspects decoded values, so this representation is only
required to distinguish distinct decodes). -/
inductive Json where
  | null : Json
  | bool (b : Bool) : Json
  | num (lit : List Char) : Json
  | str (s : List Char) : Json
  | arr (elems : List Json) : Json
  | obj (members : List (List Char × Json)) : Json


/-- Characters removed by Python's `str.strip()`: CPython's
`Py_UNICODE_ISSPACE` class (`str.isspace`), i.e. `U+0009`-`U+000D`,
`U+001C`-`U+001F`, space, `U+0085`, `U+00A0`, `U+1680`,
`U+2000`-`U+200A`, `U+2028`, `U+2029`, `U+202F`, `U+205F` and
`U+3000`. -/
def pyIsSpace (c : Char) : Bool :=
  (0x09 ≤ c.toNat && c.toNat ≤ 0x0d) || c == ' ' ||
  (0x1c ≤ c.toNat && c.toNat ≤ 0x1f) ||
  c.toNat == 0x85 || c.toNat == 0xa0 || c.toNat == 0x1680 ||
  (0x2000 ≤ c.toNat && c.toNat ≤ 0x200a) ||
  c.toNat == 0x2028 || c.toNat == 0x2029 || c.toNat == 0x202f ||
  c.toNat == 0x205f || c.toNat == 0x3000

/-- Python `str.strip()`: drop leading and trailing whitespace. -/
def pyStrip (s : List Char) : List Char :=
  ((s.dropWhile pyIsSpace).reverse.dropWhile pyIsSpace).reverse

/-- Python `buffer.find('\x7b')` (app.py line 141), as an `Option`al index. -/
def find_brace : List Char → Option Nat
  | [] => none
  | c :: rest => if c = '\x7b' then some 0 else (find_brace rest).map (· + 1)

/-- One update of the nesting counter (app.py lines 150-154): increment on
`\x7b`, decrement on `\x7d`, otherwise unchanged; the counter tracks raw
characters with no special-casing of braces inside string literals. -/
def braceDelta (c : Char) (count : Int) : Int :=
  if c = '\x7b' then count + 1 else if c = '\x7d' then count - 1 else count

/-- The `for i in range(start_idx, len(buffer))` brace scan of app.py
lines 146-158: starting from character position `i` with counter `count`,
update the counter with `braceDelta` at each character and return `i + 1`
for the first position at which the counter equals zero after the update
(`end_idx = i + 1; break`); return `none` if the counter never returns to
zero before the buffer ends. -/
def scanFrom : List Char → Int → Nat → Option Nat
  | [], _, _ => none
  | c :: rest, count, i =>
    if braceDelta c count = 0 then some (i + 1)
    else scanFrom rest (braceDelta c count) (i + 1)

/-- The end index (`end_idx`) of the candidate span found by scanning the
buffer from position `start`, if the brace counter balances. -/
def scan_end (buffer : List Char) (start : Nat) : Option Nat :=
  scanFrom (buffer.drop start) 0 start

/-- The `json_str[:-len("]")] if json_str.endswith("]") else json_str`
step of app.py line 165. -/
def strip_bracket (s : List Char) : List Char :=
  if s.getLast? = some ']' then s.dropLast else s

/-- Result of one `json.loads` call as the extractor observes it: a parsed
value, a `json.JSONDecodeError` (the only exception the inner
`try`/`except` catches), or any other exception (which falls through to
the outer `except Exception` handler). -/
inductive LoadsResult where
  | ok (v : Json) : LoadsResult
  | decodeErr : LoadsResult
  | otherErr : LoadsResult


/-! ### A model of Python's `json.loads` -/

/-- JSON inter-token whitespace as skipped by Python's decoder. -/
def jsonWs (c : Char) : Bool :=
  c == ' ' || c == '\t' || c == '\n' || c == '\r'

/-- Skip JSON whitespace. -/
def skipWs (s : List Char) : List Char := s.dropWhile jsonWs

/-- Value of a hexadecimal digit. -/
def hexVal (c : Char) : Option Nat :=
  if '0' ≤ c ∧ c ≤ '9' then some (c.toNat - '0'.toNat)
  else if 'a' ≤ c ∧ c ≤ 'f' then some (c.toNat - 'a'.toNat + 10)
  else if 'A' ≤ c ∧ c ≤ 'F' then some (c.toNat - 'A'.toNat + 10)
  else none

/-- Parse the body of a JSON string after the opening quote, returning the
decoded characters and the input after the closing quote.  Mirrors
Python's strict `scanstring`: `\\` escapes `"\\/bfnrt` and `\uXXXX` are
honoured, unescaped control characters below `U+0020` are rejected.
(Surrogate-pair recombination of adjacent `\uXXXX` escapes is not
modelled; no claim exercises it.) -/
def parseStringBody : Nat → List Char → Option (List Char × List Char)
  | 0, _ => none
  | _, [] => none
  | fuel + 1, c :: rest =>
    if c = '"' then some ([], rest)
    else if c = '\\' then
      match rest with
      | [] => none
      | e :: rest2 =>
        if e = '"' then (parseStringBody fuel rest2).map (fun p => ('"' :: p.1, p.2))
        else if e = '\\' then (parseStringBody fuel rest2).map (fun p => ('\\' :: p.1, p.2))
        else if e = '/' then (parseStringBody fuel rest2).map (fun p => ('/' :: p.1, p.2))
        else if e = 'b' then (parseStringBody fuel rest2).map (fun p => ('\x08' :: p.1, p.2))
        else if e = 'f' then (parseStringBody fuel rest2).map (fun p => ('\x0c' :: p.1, p.2))
        else if e = 'n' then (parseStringBody fuel rest2).map (fun p => ('\n' :: p.1, p.2))
        else if e = 'r' then (parseStringBody fuel rest2).map (fun p => ('\r' :: p.1, p.2))
        else if e = 't' then (parseStringBody fuel rest2).map (fun p => ('\t' :: p.1, p.2))
        else if e = 'u' then
          match rest2 with
          | h1 :: h2 :: h3 :: h4 :: rest3 =>
            match hexVal h1, hexVal h2, hexVal h3, hexVal h4 with
            | some a, some b, some c3, some d =>
              (parseStringBody fuel rest3).map
                (fun p => (Char.ofNat (((a * 16 + b) * 16 + c3) * 16 + d) :: p.1, p.2))
            | _, _, _, _ => none
          | _ => none
        else none
    else if c.toNat < 0x20 then none
    else (parseStringBody fuel rest).map (fun p => (c :: p.1, p.2))

/-- Parse the integer part of a JSON number: `0` or a nonzero digit
followed by digits (the `(?:0|[1-9]\d*)` group of Python's `NUMBER_RE`). -/
def parseIntPart : List Char → Option (List Char × List Char)
  | [] => none
  | c :: rest =>
    if c = '0' then some ([c], rest)
    else if c.isDigit then
      some (c :: rest.takeWhile Char.isDigit, rest.dropWhile Char.isDigit)
    else none

/-- Parse the optional fraction part `(?:\.\d+)?`. -/
def parseFracPart (s : List Char) : List Char × List Char :=
  match s with
  | '.' :: r =>
    match r.takeWhile Char.isDigit with
    | [] => ([], s)
    | ds => ('.' :: ds, r.dropWhile Char.isDigit)
  | _ => ([], s)

/-- Parse the optional exponent part `(?:[eE][-+]?\d+)?`. -/
def parseExpPart (s : List Char) : List Char × List Char :=
  match s with
  | e :: r =>
    if e = 'e' ∨ e = 'E' then
      let signed : List Char × List Char :=
        match r with
        | c :: r2 => if c = '+' ∨ c = '-' then ([c], r2) else ([], r)
        | [] => ([], r)
      match (signed.2).takeWhile Char.isDigit with
      | [] => ([], s)
      | ds => (e :: signed.1 ++ ds, (signed.2).dropWhile Char.isDigit)
    else ([], s)
  | _ => ([], s)

/-- Parse a JSON number literal (Python's `NUMBER_RE` match), returning
the matched text and the rest of the input. -/
def parseNumber (s : List Char) : Option (List Char × List Char) :=
  let negAndRest : List Char × List Char :=
    match s with
    | '-' :: r => (['-'], r)
    | _ => ([], s)
  match parseIntPart negAndRest.2 with
  | none => none
  | some (ip, s2) =>
    let fr := parseFracPart s2
    let ex := parseExpPart fr.2
    some (negAndRest.1 ++ ip ++ fr.1 ++ ex.1, ex.2)

mutual

/-- Parse one JSON value at the head of the input (no leading whitespace),
as Python's `scan_once` does: dispatch on the first character to a string,
object, array, constant (`true`/`false`/`null`/`NaN`/`Infinity`/
`-Infinity`) or number. -/
def parseValue : Nat → List Char → Option (Json × List Char)
  | 0, _ => none
  | fuel + 1, s =>
    match s with
    | [] => none
    | c :: rest =>
      if c = '"' then
        (parseStringBody (rest.length + 1) rest).map (fun p => (Json.str p.1, p.2))
      else if c = '\x7b' then
        match skipWs rest with
        | '\x7d' :: r => some (Json.obj [], r)
        | r => (parseMembers fuel r).map (fun p => (Json.obj p.1, p.2))
      else if c = '[' then
        match skipWs rest with
        | ']' :: r => some (Json.arr [], r)
        | r => (parseElems fuel r).map (fun p => (Json.arr p.1, p.2))
      else
        match s with
        | 't' :: 'r' :: 'u' :: 'e' :: r => some (Json.bool true, r)
        | 'f' :: 'a' :: 'l' :: 's' :: 'e' :: r => some (Json.bool false, r)
        | 'n' :: 'u' :: 'l' :: 'l' :: r => some (Json.null, r)
        | 'N' :: 'a' :: 'N' :: r => some (Json.num ['N', 'a', 'N'], r)
        | 'I' :: 'n' :: 'f' :: 'i' :: 'n' :: 'i' :: 't' :: 'y' :: r =>
          some (Json.num "Infinity".toList, r)
        | '-' :: 'I' :: 'n' :: 'f' :: 'i' :: 'n' :: 'i' :: 't' :: 'y' :: r =>
          some (Json.num "-Infinity".toList, r)
        | _ => (parseNumber s).map (fun p => (Json.num p.1, p.2))

/-- Parse the members of a JSON object, positioned (whitespace already
skipped) at the opening quote of the next key; consumes through the
closing `\x7d`. -/
def parseMembers : Nat → List Char → Option (List (List Char × Json) × List Char)
  | 0, _ => none
  | fuel + 1, s =>
    match s with
    | '"' :: rest =>
      match parseStringBody (rest.length + 1) rest with
      | none => none
      | some (key, r1) =>
        match skipWs r1 with
        | ':' :: r2 =>
          match parseValue fuel (skipWs r2) with
          | none => none
          | some (v, r3) =>
            match skipWs r3 with
            | ',' :: r4 =>
              (parseMembers fuel (skipWs r4)).map
                (fun p => ((key, v) :: p.1, p.2))
            | '\x7d' :: r4 => some ([(key, v)], r4)
            | _ => none
        | _ => none
    | _ => none

/-- Parse the elements of a JSON array, positioned at the first element;
consumes through the closing `]`. -/
def parseElems : Nat → List Char → Option (List Json × List Char)
  | 0, _ => none
  | fuel + 1, s =>
    match parseValue fuel s with
    | none => none
    | some (v, r1) =>
      match skipWs r1 with
      | ',' :: r2 => (parseElems fuel (skipWs r2)).map (fun p => (v :: p.1, p.2))
      | ']' :: r2 => some ([v], r2)
      | _ => none

end

/-- Python `json.loads`: skip leading whitespace, parse one value, and
require only whitespace to remain (otherwise "Extra data").  The fuel
`s.length + 1` is sufficient because every recursive step of the grammar
consumes at least one input character. -/
def parseJson (s : List Char) : Option Json :=
  match parseValue (s.length + 1) (skipWs s) with
  | some (v, rest) => if skipWs rest = [] then some v else none
  | none => none

/-- `json.loads` as the extractor calls it: success or `JSONDecodeError`.
(Python can also raise e.g. `RecursionError` on pathologically deep input;
that path is covered by the abstract `LoadsResult.otherErr` used in the
theorems about unexpected exceptions.) -/
def json_loads (s : List Char) : LoadsResult :=
  match parseJson s with
  | some v => .ok v
  | none => .decodeErr

/-! ### The extractor -/

/-- A parse outcome observable from one extraction attempt: a decoded
value (`yield json.loads(json_str)`, line 173) or a malformed balanced
span (the `JSONDecodeError` branch of lines 168-171, whose logged text is
the stripped candidate).  The back-pressure state "Incomplete" produces no
outcome (the loop just breaks), so it is not a constructor here. -/
inductive Outcome where
  | Value (v : Json) : Outcome
  | MalformedSpan (text : List Char) : Outcome


/-- Result of one iteration of the `while True` body (app.py lines
139-178): no `\x7b` in the buffer; an unbalanced counter (incomplete
object); a malformed span (trim past it, then `break`); a decoded value
(trim past it, loop again); or an unexpected exception reaching the outer
handler (`break`, buffer untouched). -/
inductive StepRes where
  | noStart : StepRes
  | incomplete : StepRes
  | malformed (text : List Char) (newBuf : List Char) : StepRes
  | okv (v : Json) (newBuf : List Char) : StepRes
  | abort : StepRes


/-- One iteration of the extraction loop body, parameterised by the
`json.loads` behaviour.  `loads` is called once on the candidate text
(line 167; the second call on line 173 returns the same value and is not
duplicated here). -/
def extractStep (loads : List Char → LoadsResult) (buffer : List Char) : StepRes :=
  match find_brace buffer with
  | none => .noStart
  | some start =>
    match scan_end buffer start with
    | none => .incomplete
    | some e =>
      match loads (strip_bracket (pyStrip ((buffer.take e).drop start))) with
      | .ok v => .okv v (buffer.drop e)
      | .decodeErr =>
        .malformed (strip_bracket (pyStrip ((buffer.take e).drop start))) (buffer.drop e)
      | .otherErr => .abort

/-- The `while True` loop, fuel-indexed.  Every iteration that continues
the loop strictly shortens the buffer, so `buffer.length + 1` fuel always
suffices (see `loopFuel_adequate`). -/
def loopFuel (loads : List Char → LoadsResult) : Nat → List Char → List Outcome × List Char
  | 0, buffer => ([], buffer)
  | fuel + 1, buffer =>
    match extractStep loads buffer with
    | .noStart => ([], buffer)
    | .incomplete => ([], buffer)
    | .abort => ([], buffer)
    | .malformed t b' => ([.MalformedSpan t], b')
    | .okv v b' =>
      let r := loopFuel loads fuel b'
      (.Value v :: r.1, r.2)

/-- The extraction loop run to completion on a buffer. -/
def extractLoop (loads : List Char → LoadsResult) (buffer : List Char) :
    List Outcome × List Char :=
  loopFuel loads (buffer.length + 1) buffer

/-- `feed`: one chunk arrives (app.py lines 130-178).  An empty chunk is
skipped (`if not chunk: continue`); otherwise the chunk is
whitespace-stripped, appended to the buffer, and the extraction loop runs.
Returns the outcomes produced during this call and the new buffer. -/
def feed (loads : List Char → LoadsResult) (buffer chunk : List Char) :
    List Outcome × List Char :=
  if chunk = [] then ([], buffer)
  else extractLoop loads (buffer ++ pyStrip chunk)

/-- Feed a sequence of chunks in order, concatenating the outcomes. -/
def feedMany (loads : List Char → LoadsResult) (buffer : List Char) :
    List (List Char) → List Outcome × List Char
  | [] => ([], buffer)
  | c :: cs =>
    let r1 := feed loads buffer c
    let r2 := feedMany loads r1.2 cs
    (r1.1 ++ r2.1, r2.2)

/-- End of stream (app.py lines 180-182): if the stripped buffer is
nonempty and not a lone `]`, run exactly one `json.loads` on the entire
raw buffer.  A successful decode yields one `Value`; a failed decode
raises out of this code (there is no handler at this level — the
exception aborts the generator and is swallowed by the outermost bare
`except`), modelled as `Except.error ()`. -/
def finish (loads : List Char → LoadsResult) (buffer : List Char) :
    Except Unit (Option Outcome) :=
  if pyStrip buffer = [] then .ok none
  else if pyStrip buffer = [']'] then .ok none
  else
    match loads buffer with
    | .ok v => .ok (some (.Value v))
    | _ => .error ()

/-- A `loads` oracle that always raises a non-`JSONDecodeError` exception,
used to witness the unexpected-exception path. -/
def constOther : List Char → LoadsResult := fun _ => .otherErr

/-! ### Concrete inputs used by the claims -/

/-- The malformed-recovery input `\x7bbad json\x7d\x7b"x":1\x7d`. -/
def exC1 : List Char := "\x7bbad json\x7d\x7b\"x\":1\x7d".toList

/-- Its first balanced span `\x7bbad json\x7d`. -/
def exC1bad : List Char := "\x7bbad json\x7d".toList

/-- The decodable object `\x7b"x":1\x7d` that follows the bad span. -/
def exObjX : List Char := "\x7b\"x\":1\x7d".toList

/-- The decoded value of `\x7b"x":1\x7d`. -/
def vX : Json := .obj [(['x'], .num ['1'])]

/-- `\x7b"a":1\x7d` decoded. -/
def vA : Json := .obj [(['a'], .num ['1'])]

/-- `\x7b"b":2\x7d` decoded. -/
def vB : Json := .obj [(['b'], .num ['2'])]

/-- The object text `\x7b"a":" "\x7d` (a whitespace character inside a
string literal). -/
def exWsObj : List Char := "\x7b\"a\":\" \"\x7d".toList

/-- A truncated trailing object `\x7b"a":`. -/
def exTrunc : List Char := "\x7b\"a\":".toList

/-- Two back-to-back objects in one chunk. -/
def exTwo : List Char := "\x7b\"a\":1\x7d\x7b\"b\":2\x7d".toList

/-- A complete object followed by the start of a second. -/
def exTail1 : List Char := "\x7b\"a\":1\x7d\x7b\"b\":".toList

/-- The object text `\x7b"a":"\x7d"\x7d`, valid JSON whose string value
contains a closing brace. -/
def exBraceStr : List Char := "\x7b\"a\":\"\x7d\"\x7d".toList

/-- The object text `\x7b"a":1\x7d`. -/
def exObjA : List Char := "\x7b\"a\":1\x7d".toList

/-- The object text `\x7b"b":2\x7d`. -/
def exObjB : List Char := "\x7b\"b\":2\x7d".toList

/-- `\x7b"a":"\x7d"\x7d` decoded. -/
def vBrace : Json := .obj [(['a'], .str ['\x7d'])]

/-- `\x7b"a":" "\x7d` decoded: the string value is one space. -/
def vSpace : Json := .obj [(['a'], .str [' '])]

/-- The value produced when the space inside `\x7b"a":" "\x7d` is lost to
chunk stripping: the string value is empty. -/
def vEmpty : Json := .obj [(['a'], .str [])]

/-! ### Supporting lemmas about the scan -/

theorem extractStep_nil (loads : List Char → LoadsResult) :
    extractStep loads [] = .noStart := rfl

theorem scanFrom_lb : ∀ (l : List Char) (count : Int) (i r : Nat),
    scanFrom l count i = some r → i < r := by
  intro l
  induction l with
  | nil => intro count i r h; simp [scanFrom] at h
  | cons c rest ih =>
    intro count i r h
    simp only [scanFrom] at h
    split at h
    · injection h with h'; omega
    · have := ih _ _ _ h; omega

theorem scanFrom_close : ∀ (l : List Char) (count : Int) (i r : Nat),
    0 < count → scanFrom l count i = some r →
    ∃ pre post, l = pre ++ '\x7d' :: post ∧ r = i + pre.length + 1 := by
  intro l
  induction l with
  | nil => intro count i r _ h; simp [scanFrom] at h
  | cons c rest ih =>
    intro count i r hc h
    simp only [scanFrom] at h
    split at h
    · next hz =>
      injection h with h'
      have hcz : c = '\x7d' := by
        by_cases h1 : c = '\x7b'
        · rw [braceDelta, if_pos h1] at hz; omega
        · by_cases h2 : c = '\x7d'
          · exact h2
          · rw [braceDelta, if_neg h1, if_neg h2] at hz; omega
      exact ⟨[], rest, by rw [hcz]; rfl, by simp; omega⟩
    · next hz =>
      have hpos : 0 < braceDelta c count := by
        by_cases h1 : c = '\x7b'
        · rw [braceDelta, if_pos h1]; omega
        · by_cases h2 : c = '\x7d'
          · rw [braceDelta, if_neg h1, if_pos h2] at hz ⊢; omega
          · rw [braceDelta, if_neg h1, if_neg h2] at hz ⊢; omega
      obtain ⟨pre, post, hl, hr⟩ := ih _ _ _ hpos h
      exact ⟨c :: pre, post, by rw [hl]; rfl, by simp; omega⟩

theorem scanFrom_app : ∀ (l₁ l₂ : List Char) (count : Int) (i r : Nat),
    scanFrom (l₁ ++ l₂) count i = some r → i + l₁.length < r →
    scanFrom l₁ count i = none := by
  intro l₁
  induction l₁ with
  | nil => intro l₂ count i r _ _; rfl
  | cons c rest ih =>
    intro l₂ count i r h hlt
    simp only [List.cons_append, scanFrom] at h
    simp only [List.length_cons] at hlt
    split at h
    · injection h with h'; omega
    · next hz =>
      rw [scanFrom, if_neg hz]
      exact ih l₂ _ _ _ h (by omega)

theorem find_brace_split : ∀ (b : List Char) (s : Nat), find_brace b = some s →
    ∃ p q, b = p ++ '\x7b' :: q ∧ p.length = s := by
  intro b
  induction b with
  | nil => intro s h; simp [find_brace] at h
  | cons c rest ih =>
    intro s h
    simp only [find_brace] at h
    split at h
    · next hc =>
      injection h with h'
      exact ⟨[], rest, by simp [hc], by simpa using h'⟩
    · cases hf : find_brace rest with
      | none => rw [hf] at h; simp at h
      | some s' =>
        rw [hf] at h
        simp only [Option.map_some'] at h
        injection h with h'
        obtain ⟨p, q, hpq, hlen⟩ := ih s' hf
        exact ⟨c :: p, q, by rw [hpq]; rfl, by simp [hlen, h']⟩

theorem find_brace_ne_nil {b : List Char} {s : Nat} (h : find_brace b = some s) :
    b ≠ [] := by
  intro hb; subst hb; simp [find_brace] at h

/-- Every resolved span sits inside the buffer as
`p ++ ('\x7b' :: mid ++ ['\x7d']) ++ q` with `p.length = start` and
`e = start + mid.length + 2`: the span opens at the found `\x7b` and ends
one character past the `\x7d` that balanced the counter. -/
theorem span_split {buffer : List Char} {start e : Nat}
    (hf : find_brace buffer = some start) (hs : scan_end buffer start = some e) :
    ∃ p mid q, buffer = p ++ ('\x7b' :: mid ++ ['\x7d']) ++ q
      ∧ p.length = start ∧ e = start + mid.length + 2 := by
  obtain ⟨p, q0, hb, hlen⟩ := find_brace_split buffer start hf
  rw [scan_end, hb, ← hlen, List.drop_left] at hs
  rw [scanFrom, if_neg (by rw [braceDelta]; simp)] at hs
  have h1 : braceDelta '\x7b' 0 = 1 := by rw [braceDelta]; simp
  rw [h1] at hs
  obtain ⟨pre, post, hq, hr⟩ := scanFrom_close q0 1 (p.length + 1) e (by omega) hs
  refine ⟨p, pre, post, ?_, hlen, by omega⟩
  rw [hb, hq]
  simp

/-- The candidate slice `buffer[start_idx:end_idx]` of a resolved span is
`'\x7b' :: mid ++ ['\x7d']`, and the trimmed buffer is the remainder `q`. -/
theorem span_candidate {buffer : List Char} {start e : Nat}
    (hf : find_brace buffer = some start) (hs : scan_end buffer start = some e) :
    ∃ mid, (buffer.take e).drop start = '\x7b' :: mid ++ ['\x7d'] := by
  obtain ⟨p, mid, q, hb, hlen, he⟩ := span_split hf hs
  refine ⟨mid, ?_⟩
  have hX : buffer.take e = p ++ ('\x7b' :: mid ++ ['\x7d']) := by
    rw [hb, ← List.append_assoc]
    exact List.take_left' (by simp; omega)
  rw [hX]
  exact List.drop_left' hlen

/-! ### Supporting lemmas about `pyStrip` and `strip_bracket` -/

theorem dropWhile_nows {l : List Char} (h : ∀ c ∈ l, pyIsSpace c = false) :
    l.dropWhile pyIsSpace = l := by
  cases l with
  | nil => rfl
  | cons c rest => simp [List.dropWhile, h c (by simp)]

theorem pyStrip_nows {l : List Char} (h : ∀ c ∈ l, pyIsSpace c = false) :
    pyStrip l = l := by
  rw [pyStrip, dropWhile_nows h,
    dropWhile_nows (fun c hc => h c (List.mem_reverse.mp hc)), List.reverse_reverse]

theorem pyStrip_braced (m : List Char) :
    pyStrip ('\x7b' :: m ++ ['\x7d']) = '\x7b' :: m ++ ['\x7d'] := by
  have h1 : ∀ (l : List Char) (c : Char), pyIsSpace c = false →
      (c :: l).dropWhile pyIsSpace = c :: l := by
    intro l c hc; simp [List.dropWhile, hc]
  rw [pyStrip, show ('\x7b' :: m ++ ['\x7d'] : List Char) = '\x7b' :: (m ++ ['\x7d']) from rfl,
    h1 (m ++ ['\x7d']) '\x7b' (by decide)]
  have h2 : ('\x7b' :: (m ++ ['\x7d']) : List Char).reverse
      = '\x7d' :: (m.reverse ++ ['\x7b']) := by simp
  rw [h2, h1 (m.reverse ++ ['\x7b']) '\x7d' (by decide)]
  simp

theorem strip_bracket_braced (m : List Char) :
    strip_bracket ('\x7b' :: m ++ ['\x7d']) = '\x7b' :: m ++ ['\x7d'] := by
  rw [strip_bracket, List.getLast?_concat]
  simp

/-! ### Supporting lemmas about the extraction loop -/

theorem extractStep_okv_shape {loads : List Char → LoadsResult}
    {buffer b' : List Char} {v : Json}
    (h : extractStep loads buffer = .okv v b') :
    ∃ start e, find_brace buffer = some start ∧ scan_end buffer start = some e ∧
      loads (strip_bracket (pyStrip ((buffer.take e).drop start))) = .ok v ∧
      b' = buffer.drop e ∧ 0 < e ∧ buffer ≠ [] := by
  rw [extractStep] at h
  split at h
  · exact absurd h (by simp)
  · next start hf =>
    split at h
    · exact absurd h (by simp)
    · next e hs =>
      split at h
      · next w hl =>
        injection h with h1 h2
        subst h1
        exact ⟨start, e, hf, hs, hl, h2.symm,
          by have := scanFrom_lb _ _ _ _ hs; omega, find_brace_ne_nil hf⟩
      · exact absurd h (by simp)
      · exact absurd h (by simp)

theorem extractStep_mal_shape {loads : List Char → LoadsResult}
    {buffer b' t : List Char}
    (h : extractStep loads buffer = .malformed t b') :
    ∃ start e, find_brace buffer = some start ∧ scan_end buffer start = some e ∧
      t = strip_bracket (pyStrip ((buffer.take e).drop start)) ∧
      loads t = .decodeErr ∧
      b' = buffer.drop e ∧ 0 < e ∧ buffer ≠ [] := by
  rw [extractStep] at h
  split at h
  · exact absurd h (by simp)
  · next start hf =>
    split at h
    · exact absurd h (by simp)
    · next e hs =>
      split at h
      · exact absurd h (by simp)
      · next hl =>
        injection h with h1 h2
        exact ⟨start, e, hf, hs, h1.symm, by rw [← h1]; exact hl, h2.symm,
          by have := scanFrom_lb _ _ _ _ hs; omega, find_brace_ne_nil hf⟩
      · exact absurd h (by simp)

theorem extractStep_okv_length {loads : List Char → LoadsResult}
    {buffer b' : List Char} {v : Json}
    (h : extractStep loads buffer = .okv v b') : b'.length < buffer.length := by
  obtain ⟨start, e, _, _, _, hb, he, hne⟩ := extractStep_okv_shape h
  have hpos : 0 < buffer.length := List.length_pos.mpr hne
  rw [hb, List.length_drop]
  omega

theorem loopFuel_adequate (loads : List Char → LoadsResult) :
    ∀ f g buffer, buffer.length < f → buffer.length < g →
      loopFuel loads f buffer = loopFuel loads g buffer := by
  intro f
  induction f with
  | zero => intro g b hf _; omega
  | succ f ih =>
    intro g b hf hg
    cases g with
    | zero => omega
    | succ g =>
      simp only [loopFuel]
      cases hstep : extractStep loads b with
      | noStart => rfl
      | incomplete => rfl
      | abort => rfl
      | malformed t b' => rfl
      | okv v b' =>
        have hlt := extractStep_okv_length hstep
        show (Outcome.Value v :: (loopFuel loads f b').1, (loopFuel loads f b').2)
           = (Outcome.Value v :: (loopFuel loads g b').1, (loopFuel loads g b').2)
        rw [ih g b' (by omega) (by omega)]

theorem extractLoop_stop {loads : List Char → LoadsResult} {buffer : List Char}
    (h : extractStep loads buffer = .noStart ∨ extractStep loads buffer = .incomplete ∨
         extractStep loads buffer = .abort) :
    extractLoop loads buffer = ([], buffer) := by
  rw [extractLoop]
  rcases h with h | h | h <;> simp [loopFuel, h]

theorem extractLoop_malformed {loads : List Char → LoadsResult}
    {buffer b' t : List Char}
    (h : extractStep loads buffer = .malformed t b') :
    extractLoop loads buffer = ([.MalformedSpan t], b') := by
  rw [extractLoop]
  simp [loopFuel, h]

theorem extractLoop_one {loads : List Char → LoadsResult} {t : List Char} {v : Json}
    (h : extractStep loads t = .okv v []) :
    extractLoop loads t = ([.Value v], []) := by
  have hne : t ≠ [] := by
    obtain ⟨_, _, _, _, _, _, _, hne⟩ := extractStep_okv_shape h
    exact hne
  rw [extractLoop]
  cases t with
  | nil => exact absurd rfl hne
  | cons a t' =>
    rw [List.length_cons]
    simp only [loopFuel, h]
    simp [loopFuel, extractStep_nil]

theorem strip_bracket_of_last_brace {l : List Char} (h : l.getLast? = some '\x7d') :
    strip_bracket l = l := by
  rw [strip_bracket, h]
  simp

/-! ### Supporting lemmas about `feed` on a split object -/

theorem feedMany_nils (loads : List Char → LoadsResult) :
    ∀ (cs : List (List Char)), (∀ c ∈ cs, c = []) → ∀ b, feedMany loads b cs = ([], b) := by
  intro cs
  induction cs with
  | nil => intro _ b; rfl
  | cons c cs' ih =>
    intro h b
    have hc : c = [] := h c (by simp)
    subst hc
    have hfeed : feed loads b [] = ([], b) := rfl
    simp only [feedMany, hfeed]
    rw [ih (fun x hx => h x (by simp [hx])) b]
    rfl

theorem extractStep_proper {t b r : List Char}
    (hhead : t.head? = some '\x7b')
    (hscan : scanFrom t 0 0 = some t.length)
    (hb : b ++ r = t) (hr : r ≠ []) (loads : List Char → LoadsResult) :
    extractStep loads b = .noStart ∨ extractStep loads b = .incomplete := by
  cases b with
  | nil => exact Or.inl (extractStep_nil loads)
  | cons x b' =>
    have hx : x = '\x7b' := by
      rw [← hb] at hhead
      simpa using hhead
    right
    have hf : find_brace (x :: b') = some 0 := by
      rw [find_brace, if_pos hx]
    have hrlen : 0 < r.length := List.length_pos.mpr hr
    have hs : scan_end (x :: b') 0 = none := by
      rw [scan_end, List.drop_zero]
      refine scanFrom_app _ r 0 0 t.length ?_ ?_
      · rw [hb]; exact hscan
      · rw [← hb, List.length_append]; omega
    simp only [extractStep, hf, hs]

/-- A list that starts with `\x7b` and ends with `\x7d` is
`'\x7b' :: m ++ ['\x7d']` for some middle `m`. -/
theorem braced_decomp {l : List Char}
    (hh : l.head? = some '\x7b') (hl : l.getLast? = some '\x7d') :
    ∃ m, l = '\x7b' :: m ++ ['\x7d'] := by
  cases l with
  | nil => exact Option.noConfusion hh
  | cons c rest =>
    have hc : c = '\x7b' := by simpa using hh
    subst hc
    rcases List.eq_nil_or_concat rest with hrest | ⟨m, b, hm⟩
    · subst hrest
      simp at hl
    · rw [List.concat_eq_append] at hm
      subst hm
      have hb : b = '\x7d' := by
        have hcat := @List.getLast?_concat Char b ('\x7b' :: m)
        rw [show ('\x7b' :: m) ++ [b] = '\x7b' :: (m ++ [b]) from by simp] at hcat
        rw [hcat] at hl
        exact Option.some.inj hl
      exact ⟨m, by rw [hb]; simp⟩

/-- `str.strip()` is the identity on a string whose first and last
characters are not whitespace. -/
theorem pyStrip_of_head_last {l : List Char} {a b : Char}
    (hh : l.head? = some a) (hl : l.getLast? = some b)
    (ha : pyIsSpace a = false) (hb : pyIsSpace b = false) : pyStrip l = l := by
  have h1 : l.dropWhile pyIsSpace = l := by
    cases l with
    | nil => rfl
    | cons c rest =>
      have hc : c = a := by simpa using hh
      subst hc
      simp [List.dropWhile, ha]
  have h2 : l.reverse.dropWhile pyIsSpace = l.reverse := by
    cases hrev : l.reverse with
    | nil => rfl
    | cons c rest =>
      have hc : c = b := by
        have := List.head?_reverse l
        rw [hrev, hl] at this
        simpa using this
      subst hc
      simp [List.dropWhile, hb]
  rw [pyStrip, h1, h2, List.reverse_reverse]

/-- If the scan balances within `l₁`, appending more input does not change
the span it finds (the loop breaks at the first zero crossing). -/
theorem scanFrom_append_left : ∀ (l₁ l₂ : List Char) (count : Int) (i r : Nat),
    scanFrom l₁ count i = some r → scanFrom (l₁ ++ l₂) count i = some r := by
  intro l₁
  induction l₁ with
  | nil => intro l₂ count i r h; exact Option.noConfusion h
  | cons c rest ih =>
    intro l₂ count i r h
    rw [scanFrom] at h
    rw [List.cons_append, scanFrom]
    split at h
    · next hz => rw [if_pos hz]; exact h
    · next hz => rw [if_neg hz]; exact ih l₂ _ _ _ h

/-- A successful extraction step prepends its value to whatever the loop
produces on the trimmed buffer. -/
theorem extractLoop_cons {loads : List Char → LoadsResult} {b b' : List Char} {v : Json}
    (h : extractStep loads b = .okv v b') :
    extractLoop loads b
      = (.Value v :: (extractLoop loads b').1, (extractLoop loads b').2) := by
  have hlt := extractStep_okv_length h
  rw [extractLoop]
  simp only [loopFuel, h]
  rw [loopFuel_adequate loads b.length (b'.length + 1) b' (by omega) (by omega)]
  rfl

/-- When a complete object text `t` (first zero crossing of the counter
exactly at its end) sits at the front of the buffer, the extraction step
resolves exactly `t`, yields its value, and trims the buffer to the
remainder. -/
theorem extractStep_first (rest : List Char) {t : List Char} {v : Json}
    (hload : json_loads t = .ok v)
    (hhead : t.head? = some '\x7b')
    (hlast : t.getLast? = some '\x7d')
    (hscan : scanFrom t 0 0 = some t.length) :
    extractStep json_loads (t ++ rest) = .okv v rest := by
  obtain ⟨m, hm⟩ := braced_decomp hhead hlast
  have hf : find_brace (t ++ rest) = some 0 := by
    rw [hm, show ('\x7b' :: m ++ ['\x7d']) ++ rest = '\x7b' :: ((m ++ ['\x7d']) ++ rest)
      from by simp]
    rw [find_brace, if_pos rfl]
  have hs : scan_end (t ++ rest) 0 = some t.length := by
    rw [scan_end, List.drop_zero]
    exact scanFrom_append_left t rest 0 0 t.length hscan
  have hcand : ((t ++ rest).take t.length).drop 0 = t := by
    rw [List.drop_zero, List.take_left]
  have hdrop : (t ++ rest).drop t.length = rest := List.drop_left t rest
  simp only [extractStep, hf, hs, hcand,
    pyStrip_of_head_last hhead hlast (by decide) (by decide),
    strip_bracket_of_last_brace hlast, hload, hdrop]

theorem extractStep_complete {t : List Char} {v : Json}
    (hload : json_loads t = .ok v)
    (hhead : t.head? = some '\x7b')
    (hlast : t.getLast? = some '\x7d')
    (hscan : scanFrom t 0 0 = some t.length) :
    extractStep json_loads t = .okv v [] := by
  have h := extractStep_first [] hload hhead hlast hscan
  rwa [List.append_nil] at h

theorem feedMany_complete {t : List Char} {v : Json}
    (hload : json_loads t = .ok v)
    (hws : ∀ c ∈ t, pyIsSpace c = false)
    (hhead : t.head? = some '\x7b')
    (hlast : t.getLast? = some '\x7d')
    (hscan : scanFrom t 0 0 = some t.length) :
    ∀ (cs : List (List Char)) (b : List Char),
      b ++ cs.flatten = t → cs.flatten ≠ [] →
      feedMany json_loads b cs = ([.Value v], []) := by
  intro cs
  induction cs with
  | nil => intro b _ hne; exact absurd rfl hne
  | cons c cs' ih =>
    intro b hb hne
    rw [List.flatten_cons] at hb hne
    by_cases hc : c = []
    · subst hc
      rw [List.nil_append] at hb hne
      have hfeed : feed json_loads b [] = ([], b) := rfl
      simp only [feedMany, hfeed]
      rw [ih b hb hne]
      rfl
    · have hcw : ∀ x ∈ c, pyIsSpace x = false := by
        intro x hx
        apply hws
        rw [← hb]
        simp [hx]
      have hstrip : pyStrip c = c := pyStrip_nows hcw
      by_cases hj : cs'.flatten = []
      · rw [hj, List.append_nil] at hb
        have hstep : extractStep json_loads (b ++ c) = .okv v [] := by
          rw [hb]
          exact extractStep_complete hload hhead hlast hscan
        have hfeed : feed json_loads b c = ([.Value v], []) := by
          rw [feed, if_neg hc, hstrip, extractLoop_one hstep]
        simp only [feedMany, hfeed]
        rw [feedMany_nils json_loads cs' (List.flatten_eq_nil_iff.mp hj) []]
        rfl
      · have hbc : (b ++ c) ++ cs'.flatten = t := by
          rw [List.append_assoc]; exact hb
        have hstop := extractStep_proper hhead hscan hbc hj json_loads
        have hfeed : feed json_loads b c = ([], b ++ c) := by
          rw [feed, if_neg hc, hstrip]
          exact extractLoop_stop
            (by rcases hstop with h | h; exacts [Or.inl h, Or.inr (Or.inl h)])
        simp only [feedMany, hfeed]
        rw [ih (b ++ c) hbc hj]
        rfl

/-! ### The claims -/

/-- C1, counterexample: feeding the single chunk `\x7bbad json\x7d\x7b"x":1\x7d`
produces exactly one outcome, the `MalformedSpan` for the bad span — not
the `MalformedSpan` followed by a `Value` that the claim predicts for the
same feed call.  The decode error's `break` (app.py line 171) ends the
extraction loop, leaving the following object in the buffer. -/
theorem C1_counterexample :
    feed json_loads [] exC1 = ([Outcome.MalformedSpan exC1bad], exObjX)
    ∧ ([Outcome.MalformedSpan exC1bad] : List Outcome)
      ≠ [Outcome.MalformedSpan exC1bad, Outcome.Value vX] :=
  ⟨rfl, by simp⟩

/-- C1, amended: for every buffer in which the scan resolves a balanced
span whose stripped text fails JSON decoding, the feed call emits exactly
one `MalformedSpan` for that span, trims the buffer up to the span's end,
and then breaks out of the extraction loop (rather than continuing in the
same call); on the example, the following object stays in the buffer and
is emitted as a `Value` by `finish`, so the scan does not get stuck. -/
theorem C1_amended_thm :
    (∀ (buffer : List Char) (start e : Nat),
      find_brace buffer = some start → scan_end buffer start = some e →
      json_loads (strip_bracket (pyStrip ((buffer.take e).drop start))) = .decodeErr →
      extractLoop json_loads buffer
        = ([.MalformedSpan (strip_bracket (pyStrip ((buffer.take e).drop start)))],
           buffer.drop e))
    ∧ feed json_loads [] exC1 = ([.MalformedSpan exC1bad], exObjX)
    ∧ finish json_loads exObjX = .ok (some (.Value vX)) := by
  refine ⟨?_, rfl, rfl⟩
  intro buffer start e hf hs hl
  exact extractLoop_malformed (by simp only [extractStep, hf, hs, hl])

/-- C1, witness: the amended theorem applied to the concrete malformed
buffer `\x7bbad json\x7d\x7b"x":1\x7d`. -/
theorem C1_amended_witness :
    find_brace exC1 = some 0 ∧ scan_end exC1 0 = some 10
    ∧ json_loads (strip_bracket (pyStrip ((exC1.take 10).drop 0))) = .decodeErr
    ∧ extractLoop json_loads exC1
        = ([.MalformedSpan (strip_bracket (pyStrip ((exC1.take 10).drop 0)))],
           exC1.drop 10) :=
  ⟨by decide, by decide, rfl, C1_amended_thm.1 exC1 0 10 (by decide) (by decide) rfl⟩

/-- C2, counterexample: the complete JSON object text `\x7b"a":" "\x7d`
split just after the space and fed as two chunks yields one `Value`, but
it is `\x7b"a":""\x7d` — not the value of decoding the whole text — because
`feed` strips each chunk's whitespace (`chunk.decode('utf-8').strip()`,
app.py line 134), losing the space inside the string literal. -/
theorem C2_counterexample :
    json_loads exWsObj = .ok vSpace
    ∧ feedMany json_loads [] ["\x7b\"a\":\" ".toList, "\"\x7d".toList]
        = ([.Value vEmpty], [])
    ∧ vEmpty ≠ vSpace := by
  refine ⟨rfl, rfl, ?_⟩
  intro h
  simp [vEmpty, vSpace] at h

/-- C2, amended: chunk-boundary invariance holds for whitespace-free
object texts whose naive brace depth first returns to zero exactly at the
end of the text (no braces inside string literals): any way of splitting
such a text into chunks and feeding them in order yields exactly one
`Value` equal to decoding the whole text, with an empty final buffer. -/
theorem C2_amended_thm (t : List Char) (v : Json) (cs : List (List Char))
    (hload : json_loads t = .ok v)
    (hws : ∀ c ∈ t, pyIsSpace c = false)
    (hhead : t.head? = some '\x7b')
    (hlast : t.getLast? = some '\x7d')
    (hscan : scan_end t 0 = some t.length)
    (hjoin : cs.flatten = t) :
    feedMany json_loads [] cs = ([.Value v], []) := by
  rw [scan_end, List.drop_zero] at hscan
  have hne : t ≠ [] := by
    intro h; rw [h] at hhead; exact Option.noConfusion hhead
  exact feedMany_complete hload hws hhead hlast hscan cs []
    (by rw [List.nil_append, hjoin]) (by rw [hjoin]; exact hne)

/-- C2, witness: the amended theorem applied to `\x7b"x":1\x7d` split into
the chunks `\x7b"x"` and `:1\x7d`. -/
theorem C2_amended_witness :
    json_loads exObjX = .ok vX
    ∧ (∀ c ∈ exObjX, pyIsSpace c = false)
    ∧ exObjX.head? = some '\x7b'
    ∧ exObjX.getLast? = some '\x7d'
    ∧ scan_end exObjX 0 = some exObjX.length
    ∧ (["\x7b\"x\"".toList, ":1\x7d".toList] : List (List Char)).flatten = exObjX
    ∧ feedMany json_loads [] ["\x7b\"x\"".toList, ":1\x7d".toList] = ([.Value vX], []) :=
  ⟨rfl, by decide, by decide, by decide, by decide, by decide,
   C2_amended_thm exObjX vX ["\x7b\"x\"".toList, ":1\x7d".toList] rfl (by decide)
     (by decide) (by decide) (by decide) (by decide)⟩

/-- C3, counterexample: with the truncated trailing object `\x7b"a":` in
the buffer, `finish` raises (the `json.loads` on app.py line 182 has no
handler; the exception is swallowed by the outermost bare `except`),
producing no outcome at all — in particular not the `MalformedSpan`
outcome the claim predicts. -/
theorem C3_counterexample :
    finish json_loads exTrunc = Except.error ()
    ∧ finish json_loads exTrunc ≠ Except.ok (some (Outcome.MalformedSpan exTrunc)) :=
  ⟨rfl, fun h => Except.noConfusion h⟩

/-- C3, amended: for every end-of-stream buffer whose stripped content is
nonempty and not a lone `]`, `finish` performs one decode attempt on the
entire remaining buffer; a successful decode is returned as one `Value`
outcome, and a failed decode raises out of the extractor (no
`MalformedSpan` outcome, no outcome at all). -/
theorem C3_amended_thm (b : List Char)
    (h1 : pyStrip b ≠ []) (h2 : pyStrip b ≠ [']']) :
    (∀ v, json_loads b = .ok v → finish json_loads b = .ok (some (.Value v)))
    ∧ (json_loads b = .decodeErr → finish json_loads b = .error ()) := by
  constructor
  · intro v hv
    rw [finish, if_neg h1, if_neg h2, hv]
  · intro hv
    rw [finish, if_neg h1, if_neg h2, hv]

/-- C3, witness: the amended theorem applied to the truncated buffer
`\x7b"a":`, which fails the decode attempt. -/
theorem C3_amended_witness :
    pyStrip exTrunc ≠ [] ∧ pyStrip exTrunc ≠ [']']
    ∧ json_loads exTrunc = .decodeErr
    ∧ finish json_loads exTrunc = .error () :=
  ⟨by decide, by decide, rfl, (C3_amended_thm exTrunc (by decide) (by decide)).2 rfl⟩

/-- C4, counterexample: `\x7b"a":"\x7d"\x7d` and `\x7b"b":2\x7d` are both
complete JSON objects, but feeding their back-to-back concatenation as a
single chunk yields zero `Value` outcomes — the naive counter stops at the
`\x7d` inside the first object's string, the mis-chosen span fails to
decode, and the loop trims and breaks — not the two `Value`s the claim
predicts for every such chunk. -/
theorem C4_counterexample :
    json_loads exBraceStr = .ok vBrace
    ∧ json_loads exObjB = .ok vB
    ∧ feed json_loads [] (exBraceStr ++ exObjB)
        = ([.MalformedSpan ("\x7b\"a\":\"\x7d".toList)], "\"\x7d\x7b\"b\":2\x7d".toList)
    ∧ ([Outcome.MalformedSpan ("\x7b\"a\":\"\x7d".toList)] : List Outcome)
        ≠ [Outcome.Value vBrace, Outcome.Value vB] :=
  ⟨rfl, rfl, rfl, by simp⟩

/-- C4, amended: for every single chunk that is the concatenation of two
complete JSON object texts, each of whose naive brace depth first returns
to zero exactly at its own end (no braces inside string literals), one
`feed` call yields exactly the two `Value` outcomes in left-to-right
order and empties the buffer. -/
theorem C4_amended_thm (t1 t2 : List Char) (v1 v2 : Json)
    (h1 : json_loads t1 = .ok v1)
    (hh1 : t1.head? = some '\x7b') (hl1 : t1.getLast? = some '\x7d')
    (hs1 : scan_end t1 0 = some t1.length)
    (h2 : json_loads t2 = .ok v2)
    (hh2 : t2.head? = some '\x7b') (hl2 : t2.getLast? = some '\x7d')
    (hs2 : scan_end t2 0 = some t2.length) :
    feed json_loads [] (t1 ++ t2) = ([.Value v1, .Value v2], []) := by
  rw [scan_end, List.drop_zero] at hs1 hs2
  obtain ⟨m1, hm1⟩ := braced_decomp hh1 hl1
  obtain ⟨m2, hm2⟩ := braced_decomp hh2 hl2
  have hne : t1 ++ t2 ≠ [] := by rw [hm1]; simp
  have hh12 : (t1 ++ t2).head? = some '\x7b' := by rw [hm1]; simp
  have hl12 : (t1 ++ t2).getLast? = some '\x7d' := by
    rw [hm2, show t1 ++ ('\x7b' :: m2 ++ ['\x7d']) = (t1 ++ ('\x7b' :: m2)) ++ ['\x7d']
      from by simp]
    exact List.getLast?_concat _
  rw [feed, if_neg hne, List.nil_append,
    pyStrip_of_head_last hh12 hl12 (by decide) (by decide),
    extractLoop_cons (extractStep_first t2 h1 hh1 hl1 hs1),
    extractLoop_one (extractStep_complete h2 hh2 hl2 hs2)]

/-- C4, witness: the amended theorem applied to
`\x7b"a":1\x7d\x7b"b":2\x7d`. -/
theorem C4_amended_witness :
    json_loads exObjA = .ok vA
    ∧ exObjA.head? = some '\x7b' ∧ exObjA.getLast? = some '\x7d'
    ∧ scan_end exObjA 0 = some exObjA.length
    ∧ json_loads exObjB = .ok vB
    ∧ exObjB.head? = some '\x7b' ∧ exObjB.getLast? = some '\x7d'
    ∧ scan_end exObjB 0 = some exObjB.length
    ∧ feed json_loads [] (exObjA ++ exObjB) = ([.Value vA, .Value vB], []) :=
  ⟨rfl, by decide, by decide, by decide, rfl, by decide, by decide, by decide,
   C4_amended_thm exObjA exObjB vA vB rfl (by decide) (by decide) (by decide)
     rfl (by decide) (by decide) (by decide)⟩

/-- C5: feeding `\x7b"a":1\x7d\x7b"b":` yields exactly
`Value(\x7b"a":1\x7d)` and leaves the unbalanced tail `\x7b"b":` in the
buffer; a later feed of `2\x7d` completes it and yields
`Value(\x7b"b":2\x7d)`. -/
theorem C5_thm :
    feed json_loads [] exTail1 = ([.Value vA], "\x7b\"b\":".toList)
    ∧ feed json_loads "\x7b\"b\":".toList "2\x7d".toList = ([.Value vB], []) :=
  ⟨rfl, rfl⟩

/-- C6, counterexample: `\x7b"a":"\x7d"\x7d` is a complete JSON object,
but feeding it immediately followed by `]` yields no `Value` outcome at
all — the `\x7d` inside its string desynchronizes the counter, the
mis-chosen span is reported malformed, `"\x7d]` stays in the buffer and
`finish`'s decode attempt on it raises — contradicting the claim's
"exactly one Value outcome for the object". -/
theorem C6_counterexample :
    json_loads exBraceStr = .ok vBrace
    ∧ feed json_loads [] (exBraceStr ++ [']'])
        = ([.MalformedSpan ("\x7b\"a\":\"\x7d".toList)], "\"\x7d]".toList)
    ∧ finish json_loads ("\"\x7d]".toList) = .error ()
    ∧ ([Outcome.MalformedSpan ("\x7b\"a\":\"\x7d".toList)] : List Outcome)
        ≠ [Outcome.Value vBrace] :=
  ⟨rfl, rfl, rfl, by simp⟩

/-- C6, amended: for every complete JSON object text whose naive brace
depth first returns to zero exactly at its end (no braces inside string
literals), feeding the object immediately followed by an enclosing
array's closing bracket yields exactly one `Value` for the object; the
lone `]` stays in the buffer and `finish` then returns no outcome for it
(the `buffer.strip() != "]"` guard of app.py line 181). -/
theorem C6_amended_thm (t : List Char) (v : Json)
    (hload : json_loads t = .ok v)
    (hh : t.head? = some '\x7b') (hl : t.getLast? = some '\x7d')
    (hs : scan_end t 0 = some t.length) :
    feed json_loads [] (t ++ [']']) = ([.Value v], [']'])
    ∧ finish json_loads [']'] = .ok none := by
  rw [scan_end, List.drop_zero] at hs
  obtain ⟨m, hm⟩ := braced_decomp hh hl
  have hne : t ++ [']'] ≠ [] := by rw [hm]; simp
  have hh' : (t ++ [']']).head? = some '\x7b' := by rw [hm]; simp
  have hl' : (t ++ [']']).getLast? = some ']' := List.getLast?_concat _
  refine ⟨?_, rfl⟩
  rw [feed, if_neg hne, List.nil_append,
    pyStrip_of_head_last hh' hl' (by decide) (by decide),
    extractLoop_cons (extractStep_first [']'] hload hh hl hs),
    extractLoop_stop (Or.inl (show extractStep json_loads [']'] = .noStart from rfl))]

/-- C6, witness: the amended theorem applied to `\x7b"x":1\x7d]`. -/
theorem C6_amended_witness :
    json_loads exObjX = .ok vX
    ∧ exObjX.head? = some '\x7b' ∧ exObjX.getLast? = some '\x7d'
    ∧ scan_end exObjX 0 = some exObjX.length
    ∧ (feed json_loads [] (exObjX ++ [']']) = ([.Value vX], [']'])
       ∧ finish json_loads [']'] = .ok none) :=
  ⟨rfl, by decide, by decide, by decide,
   C6_amended_thm exObjX vX rfl (by decide) (by decide) (by decide)⟩

/-- C7: when the decode attempt on a resolved span raises any exception
that is not a JSON decode-validation failure (`LoadsResult.otherErr`, the
path caught by the outer `except Exception` of app.py lines 176-178), the
feed call's extraction loop terminates with no outcome and the buffer
exactly as it was at the start of that attempt. -/
theorem C7_thm (loads : List Char → LoadsResult) (buffer : List Char) (start e : Nat)
    (hf : find_brace buffer = some start) (hs : scan_end buffer start = some e)
    (hl : loads (strip_bracket (pyStrip ((buffer.take e).drop start))) = .otherErr) :
    extractLoop loads buffer = ([], buffer) := by
  apply extractLoop_stop
  exact Or.inr (Or.inr (by simp only [extractStep, hf, hs, hl]))

/-- C7, witness: a `loads` oracle that always raises a non-decode
exception, on the buffer `\x7b\x7d`. -/
theorem C7_witness :
    find_brace "\x7b\x7d".toList = some 0
    ∧ scan_end "\x7b\x7d".toList 0 = some 2
    ∧ constOther (strip_bracket (pyStrip (("\x7b\x7d".toList.take 2).drop 0))) = .otherErr
    ∧ extractLoop constOther "\x7b\x7d".toList = ([], "\x7b\x7d".toList) :=
  ⟨by decide, by decide, rfl, C7_thm constOther "\x7b\x7d".toList 0 2 (by decide) (by decide) rfl⟩

/-- C8: whenever an extraction step resolves a span (successful decode or
malformed), the new buffer is `buffer.drop e` for the span's end index
`e > 0`: every character at an index strictly before `e` is discarded, so
subsequent scanning can only examine what lies at or after `e`. -/
theorem C8_thm (loads : List Char → LoadsResult) (buffer b' : List Char)
    (h : (∃ v, extractStep loads buffer = .okv v b') ∨
         (∃ s, extractStep loads buffer = .malformed s b')) :
    ∃ start e, find_brace buffer = some start ∧ scan_end buffer start = some e ∧
      0 < e ∧ b' = buffer.drop e := by
  rcases h with ⟨v, h⟩ | ⟨s, h⟩
  · obtain ⟨start, e, hf, hs, _, hb, he, _⟩ := extractStep_okv_shape h
    exact ⟨start, e, hf, hs, he, hb⟩
  · obtain ⟨start, e, hf, hs, _, _, hb, he, _⟩ := extractStep_mal_shape h
    exact ⟨start, e, hf, hs, he, hb⟩

/-- C8, witness: the first span of `\x7b"a":1\x7d\x7b"b":2\x7d` resolves
to a value and the buffer is trimmed to the second object. -/
theorem C8_witness :
    ((∃ v, extractStep json_loads exTwo = .okv v ("\x7b\"b\":2\x7d".toList)) ∨
     (∃ s, extractStep json_loads exTwo = .malformed s ("\x7b\"b\":2\x7d".toList)))
    ∧ ∃ start e, find_brace exTwo = some start ∧ scan_end exTwo start = some e ∧
        0 < e ∧ "\x7b\"b\":2\x7d".toList = exTwo.drop e :=
  ⟨Or.inl ⟨vA, rfl⟩,
   C8_thm json_loads exTwo ("\x7b\"b\":2\x7d".toList) (Or.inl ⟨vA, rfl⟩)⟩

/-- C9: the brace scan is a naive depth counter over raw characters: on
the valid JSON object `\x7b"a":"\x7d"\x7d` (which `json.loads` decodes
successfully) the `\x7d` inside the quoted string desynchronizes the
counter, so the candidate span ends at index 7 while the object is 9
characters long, and the mis-chosen span `\x7b"a":"\x7d` is reported
malformed. -/
theorem C9_thm :
    json_loads exBraceStr = .ok vBrace
    ∧ find_brace exBraceStr = some 0
    ∧ scan_end exBraceStr 0 = some 7
    ∧ exBraceStr.length = 9
    ∧ extractStep json_loads exBraceStr
        = .malformed ("\x7b\"a\":\"\x7d".toList) ("\"\x7d".toList) :=
  ⟨rfl, by decide, by decide, by decide, rfl⟩

/-- C10: every candidate span found by the in-loop scan ends one character
past a matched `\x7d`, so the whitespace-stripped candidate text always
ends in `\x7d` and the trailing-`]` strip of app.py line 165 never fires
inside the loop: the stripped text equals the candidate text. -/
theorem C10_thm (buffer : List Char) (start e : Nat)
    (hf : find_brace buffer = some start) (hs : scan_end buffer start = some e) :
    ((buffer.take e).drop start).getLast? = some '\x7d'
    ∧ (pyStrip ((buffer.take e).drop start)).getLast? = some '\x7d'
    ∧ strip_bracket (pyStrip ((buffer.take e).drop start))
        = pyStrip ((buffer.take e).drop start) := by
  obtain ⟨mid, hc⟩ := span_candidate hf hs
  rw [hc, pyStrip_braced, strip_bracket_braced]
  exact ⟨List.getLast?_concat _, List.getLast?_concat _, rfl⟩

/-- C10, witness: the span of the buffer `\x7b"x":1\x7d`. -/
theorem C10_witness :
    find_brace exObjX = some 0 ∧ scan_end exObjX 0 = some 7
    ∧ (((exObjX.take 7).drop 0).getLast? = some '\x7d'
       ∧ (pyStrip ((exObjX.take 7).drop 0)).getLast? = some '\x7d'
       ∧ strip_bracket (pyStrip ((exObjX.take 7).drop 0))
           = pyStrip ((exObjX.take 7).drop 0)) :=
  ⟨by decide, by decide, C10_thm exObjX 0 7 (by decide) (by decide)⟩

end App
